import Mathlib

/-!
Verification of the `ts-simple-cache` repository (`src/ttl-cache.ts`).

The file shallow-embeds the four cache classes of the source:

* `TTLCache` — a JavaScript `Map`-backed store mapping a key to
  `{ value, expireAt }`, with lazy expiry on read and FIFO eviction.
  A JavaScript `Map` is an insertion-ordered association map: setting an
  existing key updates it in place, setting a new key appends it at the
  end.  It is modelled here as a `List (K × Entry V)` with unique keys.
* `TTLCacheBackedWithFetch` — per-key on-miss fetch with coalescing of
  concurrent callers through a `pendingFetches` registry.  The single-
  threaded event-loop scheduling of the source means every synchronous
  block between `await` points is atomic; each such block is one step of
  the machine `LoaderMachine` below.
* `TTLCacheWithBatchFetch` — periodic full replacement; modelled by
  `BatchState` with the same one-step-per-synchronous-block discipline.

`Date.now()` is modelled by an explicit `now : Int` argument (milliseconds).
JavaScript truthiness of keys (relevant for the `if (firstKey)` eviction
guard in `TTLCache.set`) is modelled by a parameter `truthy : K → Bool`;
for string keys the faithful instance is `jsStrTruthy` (only `""` is falsy).
-/

universe u v

variable {K : Type u} {V : Type v} [DecidableEq K]

/-- Result type of `TTLCache.get` in the source:
`{found: true, value: V} | {found: false}`. -/
inductive CacheResult (V : Type v) where
  | found (value : V)
  | notFound
deriving DecidableEq

/-- One stored cache entry: the source stores `{ value, expireAt }` where
`expireAt` is an absolute instant in milliseconds. -/
structure Entry (V : Type v) where
  value : V
  expireAt : Int
deriving DecidableEq

/-- JavaScript `Map.prototype.get` on an insertion-ordered association list. -/
def jsMapGet : List (K × A) → K → Option A
  | [], _ => none
  | p :: rest, k => if p.1 = k then some p.2 else jsMapGet rest k

/-- JavaScript `Map.prototype.has`. -/
def jsMapHas (m : List (K × A)) (k : K) : Bool :=
  (jsMapGet m k).isSome

/-- JavaScript `Map.prototype.set`: updating an existing key keeps its
position in iteration order; a new key is appended at the end. -/
def jsMapSet (m : List (K × A)) (k : K) (v : A) : List (K × A) :=
  if jsMapHas m k then m.map (fun p => if p.1 = k then (k, v) else p)
  else m ++ [(k, v)]

/-- JavaScript `Map.prototype.delete`. -/
def jsMapDelete (m : List (K × A)) (k : K) : List (K × A) :=
  m.filter (fun p => !(decide (p.1 = k)))

/-- JavaScript truthiness of strings: only the empty string is falsy. -/
def jsStrTruthy (s : String) : Bool :=
  !(decide (s = ""))

/-- JavaScript truthiness of the optional numeric field `this.maxSize`:
`undefined` and `0` are falsy. -/
def numTruthy : Option Nat → Bool
  | none => false
  | some n => !(decide (n = 0))

/-- Constructor options of `TTLCache` (`TTLCacheOptions` in the source). -/
structure TTLCacheOptions where
  defaultTTL : Option Int
  maxSize : Option Nat
deriving DecidableEq

/-- State of a `TTLCache<K, V>` instance: the backing `Map` plus the two
configuration fields captured by the constructor. -/
structure TTLCache (K : Type u) (V : Type v) where
  cache : List (K × Entry V)
  maxSize : Option Nat
  defaultTTL : Int
deriving DecidableEq

/-- Constructor `new TTLCache(options)`: empty map, `defaultTTL` defaulting to
`60 * 1000`, `maxSize` kept optional. -/
def TTLCache.new (K : Type u) (V : Type v) (opts : TTLCacheOptions) : TTLCache K V :=
  { cache := [], maxSize := opts.maxSize, defaultTTL := opts.defaultTTL.getD 60000 }

/-- Model of `TTLCache.set(key, value, options)`.  Effective TTL is the supplied
override or the default; if `maxSize` is truthy, the key is new and the map
is at or above capacity, the first key of the map is deleted — but, as in
the source, only when that first key is itself truthy (`if (firstKey)`). -/
def TTLCache.set (truthy : K → Bool) (now : Int) (c : TTLCache K V)
    (key : K) (value : V) (ttlOpt : Option Int) : TTLCache K V :=
  let ttl := ttlOpt.getD c.defaultTTL
  let expireAt := now + ttl
  let afterEvict :=
    if numTruthy c.maxSize && !(jsMapHas c.cache key)
        && decide (c.cache.length ≥ c.maxSize.getD 0) then
      match c.cache.head? with
      | some firstPair =>
          if truthy firstPair.1 then jsMapDelete c.cache firstPair.1 else c.cache
      | none => c.cache
    else c.cache
  { c with cache := jsMapSet afterEvict key { value := value, expireAt := expireAt } }

/-- Model of `TTLCache.get(key)`: returns the result and the (possibly mutated)
cache — an entry found expired (`Date.now() > item.expireAt`, strictly) is
deleted as a side effect. -/
def TTLCache.get (now : Int) (c : TTLCache K V) (key : K) :
    CacheResult V × TTLCache K V :=
  match jsMapGet c.cache key with
  | none => (CacheResult.notFound, c)
  | some item =>
      if now > item.expireAt then
        (CacheResult.notFound, { c with cache := jsMapDelete c.cache key })
      else
        (CacheResult.found item.value, c)

/-- Model of `TTLCache.delete(key)`. -/
def TTLCache.delete (c : TTLCache K V) (key : K) : TTLCache K V :=
  { c with cache := jsMapDelete c.cache key }

/-- Model of `TTLCache.clear()`. -/
def TTLCache.clear (c : TTLCache K V) : TTLCache K V :=
  { c with cache := [] }

/-- Model of `TTLCache.cleanup()`: removes every entry whose expiry has passed. -/
def TTLCache.cleanup (now : Int) (c : TTLCache K V) : TTLCache K V :=
  { c with cache := c.cache.filter (fun p => !(decide (now > p.2.expireAt))) }

/-- Fold a list of key/value pairs into the cache with one shared `now` and
one shared per-`set` TTL option; used for bulk insertion loops. -/
def setMany (truthy : K → Bool) (now : Int) (ttlOpt : Option Int)
    (c : TTLCache K V) (kvs : List (K × V)) : TTLCache K V :=
  kvs.foldl (fun acc kv => acc.set truthy now kv.1 kv.2 ttlOpt) c

/-- States reachable from `new TTLCache(opts)` through the public API, with
no restriction on the keys used. -/
inductive ReachableAny (truthy : K → Bool) (opts : TTLCacheOptions) :
    TTLCache K V → Prop where
  | init : ReachableAny truthy opts (TTLCache.new K V opts)
  | stepSet : ∀ {c : TTLCache K V} (now : Int) (k : K) (v : V) (ttlOpt : Option Int),
      ReachableAny truthy opts c → ReachableAny truthy opts (c.set truthy now k v ttlOpt)
  | stepGet : ∀ {c : TTLCache K V} (now : Int) (k : K),
      ReachableAny truthy opts c → ReachableAny truthy opts ((c.get now k).2)
  | stepDelete : ∀ {c : TTLCache K V} (k : K),
      ReachableAny truthy opts c → ReachableAny truthy opts (c.delete k)
  | stepClear : ∀ {c : TTLCache K V},
      ReachableAny truthy opts c → ReachableAny truthy opts c.clear
  | stepCleanup : ∀ {c : TTLCache K V} (now : Int),
      ReachableAny truthy opts c → ReachableAny truthy opts (c.cleanup now)

/-- States reachable from `new TTLCache(opts)` through the public API when
every key ever passed to `set` is truthy (for string keys: nonempty). -/
inductive ReachableTruthy (truthy : K → Bool) (opts : TTLCacheOptions) :
    TTLCache K V → Prop where
  | init : ReachableTruthy truthy opts (TTLCache.new K V opts)
  | stepSet : ∀ {c : TTLCache K V} (now : Int) (k : K) (v : V) (ttlOpt : Option Int),
      ReachableTruthy truthy opts c → truthy k = true →
      ReachableTruthy truthy opts (c.set truthy now k v ttlOpt)
  | stepGet : ∀ {c : TTLCache K V} (now : Int) (k : K),
      ReachableTruthy truthy opts c → ReachableTruthy truthy opts ((c.get now k).2)
  | stepDelete : ∀ {c : TTLCache K V} (k : K),
      ReachableTruthy truthy opts c → ReachableTruthy truthy opts (c.delete k)
  | stepClear : ∀ {c : TTLCache K V},
      ReachableTruthy truthy opts c → ReachableTruthy truthy opts c.clear
  | stepCleanup : ∀ {c : TTLCache K V} (now : Int),
      ReachableTruthy truthy opts c → ReachableTruthy truthy opts (c.cleanup now)

/-! ### TTLCacheBackedWithFetch (the coalescing per-key loader)

The source runs on a single-threaded event loop; each synchronous block
between `await` points executes atomically.  `get(key)` has exactly one
such block per caller before suspension (cache probe, registry probe,
then either attach or initiate), and the fetch-promise continuation chain
(`then`/`catch`/`finally`) runs as one further block when the underlying
fetch settles.  `LoaderMachine` records the shared mutable state plus
observability counters: `fetchCount` counts invocations of the external
`fetchData`, `errorCount` counts invocations of `onFetchError`, `waiting`
counts callers suspended on the pending promise for the scenario key (the
initiator included, since it returns that promise), and `results` the
outcomes delivered to callers. -/

/-- A JavaScript error value (opaque). -/
abbrev JsError := String

/-- Result of the external per-key fetch: `{got: true, data} | {got: false}`. -/
inductive FetchResult (V : Type v) where
  | got (data : V)
  | notGot
deriving DecidableEq

/-- Shared state of one `TTLCacheBackedWithFetch` instance, plus the
delivery log for one scenario key. -/
structure LoaderMachine (K : Type u) (V : Type v) where
  cache : TTLCache K V
  pendingFetches : List (K × Nat)
  fetchCount : Nat
  errorCount : Nat
  waiting : Nat
  results : List (CacheResult V)
deriving DecidableEq

/-- Semantics of `Promise.prototype.then` for a settled promise and a stateful handler
that does not itself throw spontaneously (it reports success or failure
through the returned `Except`). -/
def jsThenS (p : Except JsError A × S) (f : A → S → Except JsError B × S) :
    Except JsError B × S :=
  match p with
  | (Except.ok a, s) => f a s
  | (Except.error e, s) => (Except.error e, s)

/-- Semantics of `Promise.prototype.catch` for a settled promise. -/
def jsCatchS (p : Except JsError A × S) (g : JsError → S → Except JsError A × S) :
    Except JsError A × S :=
  match p with
  | (Except.ok a, s) => (Except.ok a, s)
  | (Except.error e, s) => g e s

/-- Semantics of `Promise.prototype.finally` with a non-throwing handler: runs the
handler for its state effect and passes the settlement through. -/
def jsFinallyS (p : Except JsError A × S) (h : S → S) : Except JsError A × S :=
  (p.1, h p.2)

/-- The continuation chain the initiator builds in `get`:
`this.fetchData(key).then(...).catch(...).finally(...)`, evaluated at the
settlement `fo` of the external fetch.  The `then` handler writes a
successful result into the store (default TTL) and maps the fetch shape to
a `CacheResult`; the `catch` handler invokes `onFetchError` (counted) and
deletes the registry entry; the `finally` handler deletes it again.
`onFetchError` is modelled as non-throwing, which is the collaborator
contract stated for the error callback. -/
def fetchChain (truthy : K → Bool) (now : Int) (key : K)
    (fo : Except JsError (FetchResult V)) (s : LoaderMachine K V) :
    Except JsError (CacheResult V) × LoaderMachine K V :=
  jsFinallyS
    (jsCatchS
      (jsThenS (fo, s) (fun result st =>
        match result with
        | FetchResult.notGot => (Except.ok CacheResult.notFound, st)
        | FetchResult.got data =>
            (Except.ok (CacheResult.found data),
             { st with cache := st.cache.set truthy now key data none })))
      (fun _e st =>
        (Except.ok CacheResult.notFound,
         { st with errorCount := st.errorCount + 1,
                   pendingFetches := jsMapDelete st.pendingFetches key })))
    (fun st => { st with pendingFetches := jsMapDelete st.pendingFetches key })

/-- The synchronous prefix of one call to `TTLCacheBackedWithFetch.get(key)`:
probe the cache (a hit returns at once); on a miss probe `pendingFetches`
and either attach (`refCount++`, suspend) or initiate (invoke `fetchData`
— counted — and register `{promise, refCount: 1}`, suspend on the returned
promise). -/
def loaderCallerStart (_truthy : K → Bool) (now : Int) (key : K)
    (s : LoaderMachine K V) : LoaderMachine K V :=
  match s.cache.get now key with
  | (CacheResult.found v, c2) =>
      { s with cache := c2, results := s.results ++ [CacheResult.found v] }
  | (CacheResult.notFound, c2) =>
      match jsMapGet s.pendingFetches key with
      | some rc =>
          { s with cache := c2,
                   pendingFetches := jsMapSet s.pendingFetches key (rc + 1),
                   waiting := s.waiting + 1 }
      | none =>
          { s with cache := c2,
                   fetchCount := s.fetchCount + 1,
                   pendingFetches := jsMapSet s.pendingFetches key 1,
                   waiting := s.waiting + 1 }

/-- Iterated caller entry: `n` concurrent callers entering `get(key)` one after another (their
synchronous prefixes cannot interleave on the event loop). -/
def loaderCallerStarts (truthy : K → Bool) (now : Int) (key : K) :
    Nat → LoaderMachine K V → LoaderMachine K V
  | 0, s => s
  | n + 1, s => loaderCallerStarts truthy now key n (loaderCallerStart truthy now key s)

/-- The outcome every suspended caller receives once the fetch settles with
`fo`: the chain's resolution, or — were the chain ever to reject — the
`NotFound` produced by the attacher's `catch` branch. -/
def settleOutcome (fo : Except JsError (FetchResult V)) : CacheResult V :=
  match fo with
  | Except.ok (FetchResult.got d) => CacheResult.found d
  | Except.ok FetchResult.notGot => CacheResult.notFound
  | Except.error _ => CacheResult.notFound

/-- Settlement of the in-flight fetch for `key`: run the continuation
chain, then resume every suspended caller with the delivered outcome. -/
def loaderSettle (truthy : K → Bool) (now : Int) (key : K)
    (fo : Except JsError (FetchResult V)) (s : LoaderMachine K V) :
    LoaderMachine K V :=
  let pr := fetchChain truthy now key fo s
  let delivered :=
    match pr.1 with
    | Except.ok r => r
    | Except.error _ => CacheResult.notFound
  { pr.2 with waiting := 0,
              results := pr.2.results ++ List.replicate pr.2.waiting delivered }

/-! ### TTLCacheWithBatchFetch (the periodic bulk loader) -/

/-- Result of the external bulk fetch: `{ entries: [K, V][] }`. -/
structure BatchFetchResult (K : Type u) (V : Type v) where
  entries : List (K × V)
deriving DecidableEq

/-- Shared state of one `TTLCacheWithBatchFetch` instance: the store, the
`onFetchError` invocation count, whether a refresh cycle is in flight
(`currentFetch !== null`), the `get` callers suspended on that cycle (in
arrival order, by queried key), and the outcomes delivered to readers. -/
structure BatchState (K : Type u) (V : Type v) where
  cache : TTLCache K V
  errorCalls : Nat
  inFlight : Bool
  queuedReaders : List K
  readerResults : List (CacheResult V)
deriving DecidableEq

/-- The store produced by one settled refresh cycle, per `doFetchAll`:
on a fetch error, `onFetchError` runs and the store is left untouched; on
success the store is cleared and every returned pair inserted with the
default TTL, all within one synchronous block. -/
def bulkCycleCache (truthy : K → Bool) (now : Int)
    (fo : Except JsError (BatchFetchResult K V)) (c : TTLCache K V) :
    TTLCache K V :=
  match fo with
  | Except.error _ => c
  | Except.ok result => setMany truthy now none c.clear result.entries

/-- Number of `onFetchError` invocations a settled cycle performs. -/
def bulkCycleErrors (fo : Except JsError (BatchFetchResult K V)) : Nat :=
  match fo with
  | Except.error _ => 1
  | Except.ok _ => 0

/-- Sequentially resumed readers: each runs `this.cache.get(key)` on the
post-cycle store (threading the lazy-expiry side effect). -/
def readAll (now : Int) (c : TTLCache K V) (ks : List K) :
    List (CacheResult V) × TTLCache K V :=
  match ks with
  | [] => ([], c)
  | k :: rest =>
      let pr := c.get now k
      let rec2 := readAll now pr.2 rest
      (pr.1 :: rec2.1, rec2.2)

/-- Model of `fetchAll` entering `doFetchAll`: marks a cycle in flight (a call that
finds one in flight merely attaches to the same promise). -/
def bulkStartFetch (s : BatchState K V) : BatchState K V :=
  if s.inFlight then s else { s with inFlight := true }

/-- One call to `TTLCacheWithBatchFetch.get(key)`: with a cycle in flight
the caller suspends on `currentFetch`; otherwise it reads the store
directly. -/
def bulkReaderArrive (now : Int) (k : K) (s : BatchState K V) : BatchState K V :=
  if s.inFlight then { s with queuedReaders := s.queuedReaders ++ [k] }
  else
    let pr := s.cache.get now k
    { s with cache := pr.2, readerResults := s.readerResults ++ [pr.1] }

/-- Settlement of the in-flight cycle: `doFetchAll`'s continuation runs as
one synchronous block (there is no `await` between the `clear` and the
repopulation loop), `currentFetch` is cleared, and the suspended readers
resume in order against the settled store. -/
def bulkSettle (truthy : K → Bool) (now : Int)
    (fo : Except JsError (BatchFetchResult K V)) (s : BatchState K V) :
    BatchState K V :=
  let c2 := bulkCycleCache truthy now fo s.cache
  let drained := readAll now c2 s.queuedReaders
  { cache := drained.2,
    errorCalls := s.errorCalls + bulkCycleErrors fo,
    inFlight := false,
    queuedReaders := [],
    readerResults := s.readerResults ++ drained.1 }

/-- Constructor options of `TTLCacheWithBatchFetch`. -/
structure BatchFetchOptions where
  defaultTTL : Option Int
  maxSize : Option Nat
  refreshInterval : Option Int
  fetchOnStart : Option Bool
deriving DecidableEq

/-- The scheduling decisions the `TTLCacheWithBatchFetch` constructor
makes: the effective refresh interval, whether the recurring `setInterval`
timer is armed, and whether an initial `fetchAll` is triggered. -/
structure BatchFetchInit where
  refreshInterval : Int
  timerArmed : Bool
  fetchOnStartTriggered : Bool
deriving DecidableEq

/-- The `TTLCacheWithBatchFetch` constructor:
`refreshInterval = options.refreshInterval ?? 5 * 60 * 1000`, an initial
fetch when `options.fetchOnStart ?? true`, and the timer armed when the
effective interval is `> 0`. -/
def initBatchFetch (o : BatchFetchOptions) : BatchFetchInit :=
  let ri := o.refreshInterval.getD 300000
  { refreshInterval := ri,
    timerArmed := decide (ri > 0),
    fetchOnStartTriggered := o.fetchOnStart.getD true }

/-! ### Association-map lemmas -/

theorem jsMapGet_eq_none_iff (m : List (K × A)) (k : K) :
    jsMapGet m k = none ↔ ∀ p ∈ m, p.1 ≠ k := by
  induction m with
  | nil => simp [jsMapGet]
  | cons p rest ih =>
      by_cases h : p.1 = k <;> simp [jsMapGet, h, ih]

theorem jsMapGet_append_of_none (m l : List (K × A)) (k : K)
    (h : jsMapGet m k = none) : jsMapGet (m ++ l) k = jsMapGet l k := by
  induction m with
  | nil => simp
  | cons p rest ih =>
      by_cases hp : p.1 = k
      · simp [jsMapGet, hp] at h
      · simp only [jsMapGet, hp, if_false, List.cons_append] at h ⊢
        simp [jsMapGet, hp]
        exact ih h

theorem jsMapGet_set_self (m : List (K × A)) (k : K) (a : A) :
    jsMapGet (jsMapSet m k a) k = some a := by
  unfold jsMapSet
  by_cases h : jsMapHas m k = true
  · simp only [h, if_true]
    induction m with
    | nil => simp [jsMapHas, jsMapGet] at h
    | cons p rest ih =>
        by_cases hp : p.1 = k
        · simp [jsMapGet, hp]
        · simp only [jsMapHas, jsMapGet, hp, if_false] at h
          simp only [List.map_cons, hp, if_false]
          simp only [jsMapGet, hp, if_false]
          exact ih h
  · simp only [h]
    simp only [Bool.false_eq_true, if_false]
    have hnone : jsMapGet m k = none := by
      unfold jsMapHas at h
      cases hm : jsMapGet m k with
      | none => rfl
      | some a => rw [hm] at h; simp at h
    rw [jsMapGet_append_of_none m _ k hnone]
    simp [jsMapGet]

theorem jsMapSet_of_none (m : List (K × A)) (k : K) (a : A)
    (h : jsMapGet m k = none) : jsMapSet m k a = m ++ [(k, a)] := by
  unfold jsMapSet jsMapHas
  rw [h]
  rfl

theorem jsMapGet_delete_self (m : List (K × A)) (k : K) :
    jsMapGet (jsMapDelete m k) k = none := by
  induction m with
  | nil => simp [jsMapDelete, jsMapGet]
  | cons p rest ih =>
      by_cases hp : p.1 = k
      · simpa [jsMapDelete, hp] using ih
      · simp only [jsMapDelete, List.filter_cons, hp] at ih ⊢
        simpa [jsMapGet, hp] using ih

theorem jsMapGet_delete_other (m : List (K × A)) (k j : K) (h : j ≠ k) :
    jsMapGet (jsMapDelete m k) j = jsMapGet m j := by
  induction m with
  | nil => simp [jsMapDelete]
  | cons p rest ih =>
      by_cases hp : p.1 = k
      · have hpj : p.1 ≠ j := by rw [hp]; exact fun hh => h hh.symm
        rw [jsMapDelete] at ih ⊢
        simp only [List.filter_cons, hp]
        simp only [decide_True, Bool.not_true, Bool.false_eq_true, if_false]
        rw [ih]
        simp [jsMapGet, hpj]
      · rw [jsMapDelete] at ih ⊢
        simp only [List.filter_cons, hp]
        simp only [decide_False, Bool.not_false, if_true]
        by_cases hpj : p.1 = j
        · simp [jsMapGet, hpj]
        · simp only [jsMapGet, hpj, if_false]
          exact ih

theorem jsMapDelete_cons_self (rest : List (K × A)) (k : K) (a : A)
    (h : ∀ p ∈ rest, p.1 ≠ k) : jsMapDelete ((k, a) :: rest) k = rest := by
  simp only [jsMapDelete, List.filter_cons]
  simp only [decide_True, Bool.not_true, Bool.false_eq_true, if_false]
  exact List.filter_eq_self.mpr (fun p hp => by simp [h p hp])

theorem jsMapGet_of_mem_nodup (m : List (K × A)) (k : K) (a : A)
    (hnd : (m.map Prod.fst).Nodup) (hmem : (k, a) ∈ m) :
    jsMapGet m k = some a := by
  induction m with
  | nil => simp at hmem
  | cons p rest ih =>
      simp only [List.map_cons, List.nodup_cons] at hnd
      rcases List.mem_cons.mp hmem with hh | hh
      · rw [← hh]
        simp [jsMapGet]
      · have hp : p.1 ≠ k := by
          intro he
          exact hnd.1 (he ▸ (List.mem_map.mpr ⟨(k, a), hh, rfl⟩))
        simp only [jsMapGet, hp, if_false]
        exact ih hnd.2 hh

theorem jsMapSet_length_of_has (m : List (K × A)) (k : K) (a : A)
    (h : jsMapHas m k = true) : (jsMapSet m k a).length = m.length := by
  simp [jsMapSet, h]

theorem jsMapDelete_length_lt (m : List (K × A)) (k : K)
    (h : jsMapHas m k = true) : (jsMapDelete m k).length < m.length := by
  induction m with
  | nil => simp [jsMapHas, jsMapGet] at h
  | cons p rest ih =>
      by_cases hp : p.1 = k
      · simp only [jsMapDelete, List.filter_cons, hp]
        simp only [decide_True, Bool.not_true, Bool.false_eq_true, if_false]
        exact Nat.lt_succ_of_le (List.length_filter_le _ rest)
      · simp only [jsMapHas, jsMapGet, hp, if_false] at h
        simp only [jsMapDelete, List.filter_cons, hp]
        simp only [decide_False, Bool.not_false, if_true, List.length_cons]
        exact Nat.succ_lt_succ (ih h)

/-! ### TTLCache lemmas -/

theorem set_maxSize (truthy : K → Bool) (now : Int) (c : TTLCache K V)
    (k : K) (v : V) (ttlOpt : Option Int) :
    (c.set truthy now k v ttlOpt).maxSize = c.maxSize := rfl

theorem set_defaultTTL (truthy : K → Bool) (now : Int) (c : TTLCache K V)
    (k : K) (v : V) (ttlOpt : Option Int) :
    (c.set truthy now k v ttlOpt).defaultTTL = c.defaultTTL := rfl

theorem set_cache_get_self (truthy : K → Bool) (now : Int) (c : TTLCache K V)
    (k : K) (v : V) (ttlOpt : Option Int) :
    jsMapGet ((c.set truthy now k v ttlOpt).cache) k
      = some { value := v, expireAt := now + ttlOpt.getD c.defaultTTL } := by
  simp only [TTLCache.set]
  exact jsMapGet_set_self _ _ _

theorem get_stable (now : Int) (c : TTLCache K V) (k : K)
    (h : (c.get now k).1 = CacheResult.notFound) :
    (c.get now k).2.get now k = (CacheResult.notFound, (c.get now k).2) := by
  unfold TTLCache.get at h ⊢
  cases hm : jsMapGet c.cache k with
  | none => simp only [hm]
  | some item =>
      rw [hm] at h
      by_cases hexp : now > item.expireAt
      · simp only [hexp, if_true] at h ⊢
        simp only [jsMapGet_delete_self]
      · simp [hexp] at h

/-! ### Claim C7 -/

/-- C7 counterexample: with a supplied TTL of zero, an entry set at instant
1000 and read back at the same instant 1000 is returned `Found`, because
the expiry test `Date.now() > item.expireAt` is strict — the claim's
"NotFound at any time at or after the set (including the same instant)"
fails at the same instant. -/
theorem C7_counterexample :
    (((TTLCache.new String Nat { defaultTTL := none, maxSize := none }).set
        jsStrTruthy 1000 "k" 5 (some 0)).get 1000 "k").1
      = CacheResult.found 5 := by
  decide

/-- C7 (amended): after `set(key, value, {ttl})` with `ttl ≤ 0` at instant
`t`, a `get(key)` at any instant `tr ≥ t` returns `NotFound`, provided the
read is strictly later than the set or the TTL is strictly negative; in the
remaining case (`ttl = 0`, read at the same instant) the entry is still
returned `Found`, as `C7_counterexample` shows. -/
theorem C7_zero_ttl_expired (truthy : K → Bool) (c : TTLCache K V)
    (k : K) (v : V) (t tr ttl : Int)
    (httl : ttl ≤ 0) (hle : t ≤ tr) (hstrict : ttl < 0 ∨ t < tr) :
    ((c.set truthy t k v (some ttl)).get tr k).1 = CacheResult.notFound := by
  have hget := set_cache_get_self truthy t c k v (some ttl)
  unfold TTLCache.get
  rw [hget]
  have hx : tr > t + (some ttl).getD c.defaultTTL := by
    simp only [Option.getD]
    rcases hstrict with h | h <;> omega
  simp only [hx, if_true]

/-- Witness for `C7_zero_ttl_expired` at TTL `-1`, set and read both at
instant 0. -/
theorem C7_witness :
    (-1 : Int) ≤ 0 ∧ (0 : Int) ≤ 0 ∧
    (((TTLCache.new String Nat { defaultTTL := none, maxSize := none }).set
        jsStrTruthy 0 "k" 5 (some (-1))).get 0 "k").1 = CacheResult.notFound :=
  ⟨by decide, by decide,
    C7_zero_ttl_expired jsStrTruthy
      (TTLCache.new String Nat { defaultTTL := none, maxSize := none })
      "k" 5 0 0 (-1) (by decide) (by decide) (Or.inl (by decide))⟩

/-! ### Claim C10 -/

/-- C10: `TTLCache.get(k)` modifies at most the entry stored under `k`:
the sequence of entries for all other keys is unchanged (no insertion,
reordering, or alteration), the resulting map is either the original or
the original with `k` deleted, the configuration fields are untouched,
and a lookup of any other key is unaffected. -/
theorem C10_get_frame (now : Int) (c : TTLCache K V) (k : K) :
    ((c.get now k).2.cache.filter (fun p => !(decide (p.1 = k)))
        = c.cache.filter (fun p => !(decide (p.1 = k)))) ∧
    ((c.get now k).2.cache = c.cache ∨ (c.get now k).2.cache = jsMapDelete c.cache k) ∧
    (c.get now k).2.maxSize = c.maxSize ∧
    (c.get now k).2.defaultTTL = c.defaultTTL ∧
    (∀ j, j ≠ k → jsMapGet (c.get now k).2.cache j = jsMapGet c.cache j) := by
  have hsplit : (c.get now k).2 = c ∨
      (c.get now k).2 = { c with cache := jsMapDelete c.cache k } := by
    unfold TTLCache.get
    split
    · exact Or.inl rfl
    · split
      · exact Or.inr rfl
      · exact Or.inl rfl
  rcases hsplit with h | h
  · rw [h]
    exact ⟨rfl, Or.inl rfl, rfl, rfl, fun _ _ => rfl⟩
  · rw [h]
    refine ⟨?_, Or.inr rfl, rfl, rfl, ?_⟩
    · exact List.filter_eq_self.mpr (fun p hp => (List.mem_filter.mp hp).2)
    · intro j hj
      exact jsMapGet_delete_other c.cache k j hj

/-- Witness for `C10_get_frame`: a lookup of `"j"` is unaffected by
`get("k")` on a concrete one-entry cache. -/
theorem C10_witness :
    jsMapGet (((TTLCache.new String Nat { defaultTTL := none, maxSize := none }).set
        jsStrTruthy 0 "j" 7 none).get 0 "k").2.cache "j"
      = jsMapGet ((TTLCache.new String Nat { defaultTTL := none, maxSize := none }).set
        jsStrTruthy 0 "j" 7 none).cache "j" :=
  (C10_get_frame 0 ((TTLCache.new String Nat { defaultTTL := none, maxSize := none }).set
      jsStrTruthy 0 "j" 7 none) "k").2.2.2.2 "j" (by decide)

/-! ### Eviction and bulk-insertion lemmas -/

theorem jsMapGet_filter_none (m : List (K × A)) (k : K) (q : K × A → Bool)
    (h : jsMapGet m k = none) : jsMapGet (m.filter q) k = none := by
  rw [jsMapGet_eq_none_iff] at h ⊢
  exact fun p hp => h p (List.mem_filter.mp hp).1

theorem jsMapSet_mem (m : List (K × A)) (k : K) (a : A) (p : K × A)
    (hp : p ∈ jsMapSet m k a) : p = (k, a) ∨ p ∈ m := by
  unfold jsMapSet at hp
  by_cases hhas : jsMapHas m k = true
  · rw [if_pos hhas] at hp
    rcases List.mem_map.mp hp with ⟨q, hq, hqe⟩
    by_cases hq1 : q.1 = k
    · left; rw [← hqe]; simp [hq1]
    · right; rw [← hqe]; simpa [hq1] using hq
  · rw [if_neg hhas] at hp
    rcases List.mem_append.mp hp with h | h
    · exact Or.inr h
    · left; simpa using h

theorem set_fresh_append (truthy : K → Bool) (now : Int) (c : TTLCache K V)
    (k : K) (v : V) (ttlOpt : Option Int)
    (hnew : jsMapGet c.cache k = none)
    (hcap : numTruthy c.maxSize = true → c.cache.length < c.maxSize.getD 0) :
    (c.set truthy now k v ttlOpt).cache
      = c.cache ++ [(k, { value := v, expireAt := now + ttlOpt.getD c.defaultTTL })] := by
  have hcond : (numTruthy c.maxSize && !(jsMapHas c.cache k)
      && decide (c.cache.length ≥ c.maxSize.getD 0)) = false := by
    cases hnum : numTruthy c.maxSize with
    | false => simp [hnum]
    | true =>
        have hlt := hcap hnum
        have hd : decide (c.cache.length ≥ c.maxSize.getD 0) = false :=
          decide_eq_false (by omega)
        simp [hd]
  simp only [TTLCache.set, hcond, Bool.false_eq_true, if_false]
  exact jsMapSet_of_none c.cache k _ hnew

theorem set_at_capacity_evicts (truthy : K → Bool) (now : Int) (c : TTLCache K V)
    (k : K) (v : V) (ttlOpt : Option Int) (k0 : K) (e0 : Entry V)
    (rest : List (K × Entry V))
    (hc : c.cache = (k0, e0) :: rest)
    (hnew : jsMapGet c.cache k = none)
    (hnum : numTruthy c.maxSize = true)
    (hlen : c.cache.length ≥ c.maxSize.getD 0)
    (htr : truthy k0 = true)
    (hk0 : ∀ p ∈ rest, p.1 ≠ k0) :
    (c.set truthy now k v ttlOpt).cache
      = rest ++ [(k, { value := v, expireAt := now + ttlOpt.getD c.defaultTTL })] := by
  have hhas : jsMapHas c.cache k = false := by simp [jsMapHas, hnew]
  have hcond : (numTruthy c.maxSize && !(jsMapHas c.cache k)
      && decide (c.cache.length ≥ c.maxSize.getD 0)) = true := by
    simp [hnum, hhas, hlen]
  have hrest : jsMapGet rest k = none := by
    rw [hc] at hnew
    by_cases hk : k0 = k
    · rw [jsMapGet] at hnew; simp [hk] at hnew
    · rw [jsMapGet] at hnew; simpa [hk] using hnew
  simp only [TTLCache.set, hcond, eq_self_iff_true, if_true]
  rw [hc]
  simp only [List.head?_cons, htr, eq_self_iff_true, if_true]
  rw [jsMapDelete_cons_self rest k0 e0 hk0]
  exact jsMapSet_of_none rest k _ hrest

theorem get_notFound_of_none (now : Int) (c : TTLCache K V) (k : K)
    (h : jsMapGet c.cache k = none) : (c.get now k).1 = CacheResult.notFound := by
  simp only [TTLCache.get, h]

theorem get_found_of_mem (now : Int) (c : TTLCache K V) (k : K) (v : V) (e : Int)
    (hm : jsMapGet c.cache k = some { value := v, expireAt := e })
    (hlive : ¬ now > e) : (c.get now k).1 = CacheResult.found v := by
  simp only [TTLCache.get, hm, hlive, if_false]

theorem setMany_cons (truthy : K → Bool) (now : Int) (ttlOpt : Option Int)
    (c : TTLCache K V) (kv : K × V) (kvs : List (K × V)) :
    setMany truthy now ttlOpt c (kv :: kvs)
      = setMany truthy now ttlOpt (c.set truthy now kv.1 kv.2 ttlOpt) kvs := rfl

theorem setMany_maxSize (truthy : K → Bool) (now : Int) (ttlOpt : Option Int)
    (kvs : List (K × V)) : ∀ c : TTLCache K V,
    (setMany truthy now ttlOpt c kvs).maxSize = c.maxSize := by
  induction kvs with
  | nil => intro c; rfl
  | cons kv rest ih =>
      intro c
      rw [setMany_cons, ih]
      exact set_maxSize truthy now c kv.1 kv.2 ttlOpt

theorem setMany_defaultTTL (truthy : K → Bool) (now : Int) (ttlOpt : Option Int)
    (kvs : List (K × V)) : ∀ c : TTLCache K V,
    (setMany truthy now ttlOpt c kvs).defaultTTL = c.defaultTTL := by
  induction kvs with
  | nil => intro c; rfl
  | cons kv rest ih =>
      intro c
      rw [setMany_cons, ih]
      exact set_defaultTTL truthy now c kv.1 kv.2 ttlOpt

theorem setMany_fresh (truthy : K → Bool) (now : Int) (ttlOpt : Option Int)
    (kvs : List (K × V)) : ∀ c : TTLCache K V,
    ((c.cache.map Prod.fst) ++ kvs.map Prod.fst).Nodup →
    (numTruthy c.maxSize = true → c.cache.length + kvs.length ≤ c.maxSize.getD 0) →
    (setMany truthy now ttlOpt c kvs).cache
      = c.cache ++ kvs.map (fun kv =>
          (kv.1, { value := kv.2, expireAt := now + ttlOpt.getD c.defaultTTL })) := by
  induction kvs with
  | nil => intro c _ _; simp [setMany]
  | cons kv rest ih =>
      intro c hnd hcap
      have hknew : jsMapGet c.cache kv.1 = none := by
        rw [jsMapGet_eq_none_iff]
        intro p hp he
        have h1 : p.1 ∈ c.cache.map Prod.fst := List.mem_map_of_mem Prod.fst hp
        have h2 : kv.1 ∈ (kv :: rest).map Prod.fst :=
          List.mem_map_of_mem Prod.fst (List.mem_cons_self kv rest)
        have hdisj := (List.nodup_append.mp hnd).2.2
        exact hdisj h1 (he ▸ h2)
      have hstep := set_fresh_append truthy now c kv.1 kv.2 ttlOpt hknew
        (fun hnum => by
          have hh := hcap hnum
          simp only [List.length_cons] at hh
          omega)
      have hnd2 : (((c.set truthy now kv.1 kv.2 ttlOpt).cache.map Prod.fst)
          ++ rest.map Prod.fst).Nodup := by
        rw [hstep]
        simpa [List.append_assoc] using hnd
      have hcap2 : numTruthy (c.set truthy now kv.1 kv.2 ttlOpt).maxSize = true →
          (c.set truthy now kv.1 kv.2 ttlOpt).cache.length + rest.length
            ≤ (c.set truthy now kv.1 kv.2 ttlOpt).maxSize.getD 0 := by
        intro hnum
        rw [set_maxSize] at hnum ⊢
        rw [hstep]
        have hh := hcap hnum
        simp only [List.length_cons] at hh
        simp only [List.length_append, List.length_cons, List.length_nil]
        omega
      rw [setMany_cons, ih _ hnd2 hcap2, hstep]
      simp only [set_defaultTTL]
      simp [List.append_assoc]

/-! ### Capacity invariant for truthy keys -/

theorem get_snd_cases (now : Int) (c : TTLCache K V) (k : K) :
    (c.get now k).2 = c ∨
    (c.get now k).2 = { c with cache := jsMapDelete c.cache k } := by
  unfold TTLCache.get
  split
  · exact Or.inl rfl
  · split
    · exact Or.inr rfl
    · exact Or.inl rfl

theorem set_inv (truthy : K → Bool) (now : Int) (c : TTLCache K V)
    (k : K) (v : V) (ttlOpt : Option Int) (N : Nat) (hN : 1 ≤ N)
    (hms : c.maxSize = some N)
    (htr : ∀ p ∈ c.cache, truthy p.1 = true)
    (hlen : c.cache.length ≤ N)
    (htk : truthy k = true) :
    (∀ p ∈ (c.set truthy now k v ttlOpt).cache, truthy p.1 = true) ∧
    (c.set truthy now k v ttlOpt).cache.length ≤ N := by
  by_cases hhas : jsMapHas c.cache k = true
  · have hcond : (numTruthy c.maxSize && !(jsMapHas c.cache k)
        && decide (c.cache.length ≥ c.maxSize.getD 0)) = false := by
      simp [hhas]
    simp only [TTLCache.set, hcond, Bool.false_eq_true, if_false]
    refine ⟨?_, ?_⟩
    · intro p hp
      rcases jsMapSet_mem c.cache k _ p hp with h | h
      · rw [h]; exact htk
      · exact htr p h
    · rw [jsMapSet_length_of_has c.cache k _ hhas]
      exact hlen
  · have hhasf : jsMapHas c.cache k = false := by
      cases hb : jsMapHas c.cache k
      · rfl
      · exact absurd hb hhas
    have hnone : jsMapGet c.cache k = none := by
      unfold jsMapHas at hhasf
      cases hm : jsMapGet c.cache k
      · rfl
      · rw [hm] at hhasf; simp at hhasf
    by_cases hge : c.cache.length ≥ N
    · have hnum : numTruthy c.maxSize = true := by
        rw [hms]
        simp [numTruthy]
        omega
      have hcond : (numTruthy c.maxSize && !(jsMapHas c.cache k)
          && decide (c.cache.length ≥ c.maxSize.getD 0)) = true := by
        have hd : decide (c.cache.length ≥ c.maxSize.getD 0) = true := by
          rw [hms]
          exact decide_eq_true (by simp only [Option.getD_some]; omega)
        simp [hnum, hhasf, hd]
      cases hcc : c.cache with
      | nil =>
          rw [hcc] at hge
          simp at hge
          omega
      | cons p0 rest0 =>
          obtain ⟨k0, e0⟩ := p0
          have htr0 : truthy k0 = true :=
            htr (k0, e0) (by rw [hcc]; exact List.mem_cons_self _ _)
          have hdelnone : jsMapGet (jsMapDelete c.cache k0) k = none :=
            jsMapGet_filter_none c.cache k _ hnone
          have hccset : (c.set truthy now k v ttlOpt).cache
              = jsMapDelete c.cache k0
                ++ [(k, { value := v, expireAt := now + ttlOpt.getD c.defaultTTL })] := by
            simp only [TTLCache.set, hcond, eq_self_iff_true, if_true]
            rw [hcc]
            simp only [List.head?_cons, htr0, eq_self_iff_true, if_true]
            rw [← hcc]
            exact jsMapSet_of_none _ _ _ hdelnone
          rw [hccset]
          constructor
          · intro p hp
            rcases List.mem_append.mp hp with h | h
            · exact htr p (List.mem_filter.mp h).1
            · rw [List.mem_singleton.mp h]
              exact htk
          · rw [List.length_append]
            have hdl : (jsMapDelete c.cache k0).length < c.cache.length :=
              jsMapDelete_length_lt c.cache k0
                (by rw [hcc]; simp [jsMapHas, jsMapGet])
            simp only [List.length_cons, List.length_nil]
            omega
    · have hcond : (numTruthy c.maxSize && !(jsMapHas c.cache k)
          && decide (c.cache.length ≥ c.maxSize.getD 0)) = false := by
        have hd : decide (c.cache.length ≥ c.maxSize.getD 0) = false := by
          rw [hms]
          exact decide_eq_false (by simp only [Option.getD_some]; omega)
        simp [hd]
      have hccset : (c.set truthy now k v ttlOpt).cache
          = c.cache ++ [(k, { value := v, expireAt := now + ttlOpt.getD c.defaultTTL })] :=
        set_fresh_append truthy now c k v ttlOpt hnone
          (fun _ => by rw [hms]; simp only [Option.getD_some]; omega)
      rw [hccset]
      constructor
      · intro p hp
        rcases List.mem_append.mp hp with h | h
        · exact htr p h
        · rw [List.mem_singleton.mp h]
          exact htk
      · rw [List.length_append]
        simp only [List.length_cons, List.length_nil]
        omega

theorem reachableTruthy_inv (truthy : K → Bool) (opts : TTLCacheOptions)
    (N : Nat) (hN : 1 ≤ N) (hsz : opts.maxSize = some N)
    (c : TTLCache K V) (hr : ReachableTruthy truthy opts c) :
    c.maxSize = some N ∧ (∀ p ∈ c.cache, truthy p.1 = true) ∧
    c.cache.length ≤ N := by
  induction hr with
  | init =>
      refine ⟨by simp [TTLCache.new, hsz], ?_, ?_⟩
      · intro p hp; simp [TTLCache.new] at hp
      · simp [TTLCache.new]
  | stepSet now k v ttlOpt _hr htk ih =>
      rcases ih with ⟨hms, htr, hlen⟩
      have h := set_inv truthy now _ k v ttlOpt N hN hms htr hlen htk
      exact ⟨hms, h.1, h.2⟩
  | stepGet now k _hr ih =>
      rcases ih with ⟨hms, htr, hlen⟩
      rcases get_snd_cases now _ k with h | h
      · rw [h]; exact ⟨hms, htr, hlen⟩
      · rw [h]
        refine ⟨hms, ?_, ?_⟩
        · intro p hp
          exact htr p (List.mem_filter.mp hp).1
        · exact le_trans (List.length_filter_le _ _) hlen
  | stepDelete k _hr ih =>
      rcases ih with ⟨hms, htr, hlen⟩
      refine ⟨hms, ?_, ?_⟩
      · intro p hp
        exact htr p (List.mem_filter.mp hp).1
      · exact le_trans (List.length_filter_le _ _) hlen
  | stepClear _hr ih =>
      rcases ih with ⟨hms, htr, hlen⟩
      refine ⟨hms, ?_, ?_⟩
      · intro p hp; simp [TTLCache.clear] at hp
      · simp [TTLCache.clear]
  | stepCleanup now _hr ih =>
      rcases ih with ⟨hms, htr, hlen⟩
      refine ⟨hms, ?_, ?_⟩
      · intro p hp
        exact htr p (List.mem_filter.mp hp).1
      · exact le_trans (List.length_filter_le _ _) hlen

theorem jsMapGet_map_entry_none (l : List (K × V)) (f : K × V → Entry V) (k : K)
    (h : ∀ q ∈ l, q.1 ≠ k) :
    jsMapGet (l.map (fun kv => (kv.1, f kv))) k = none := by
  rw [jsMapGet_eq_none_iff]
  intro p hp
  rcases List.mem_map.mp hp with ⟨q, hq, rfl⟩
  exact h q hq

omit [DecidableEq K] in
theorem nodup_keys_map_entry (l : List (K × V)) (f : K × V → Entry V)
    (h : (l.map Prod.fst).Nodup) :
    ((l.map (fun kv => (kv.1, f kv))).map Prod.fst).Nodup := by
  rw [List.map_map]
  exact h

/-! ### Claim C2 -/

/-- C2 counterexample: the claim's capacity invariant fails as stated.  With
`maxSize = 1` and string keys, inserting the falsy key `""` and then a
second key leaves the store with 2 entries: the eviction code reads the
first key but the `if (firstKey)` truthiness guard skips the delete when
that key is the empty string, and the new entry is inserted regardless. -/
theorem C2_counterexample :
    ¬ (∀ c : TTLCache String Nat,
        ReachableAny jsStrTruthy { defaultTTL := none, maxSize := some 1 } c →
        c.cache.length ≤ 1) := by
  intro h
  have hr : ReachableAny jsStrTruthy { defaultTTL := none, maxSize := some 1 }
      (((TTLCache.new String Nat { defaultTTL := none, maxSize := some 1 }).set
          jsStrTruthy 0 "" 1 none).set jsStrTruthy 0 "x" 2 none) :=
    ReachableAny.stepSet 0 "x" 2 none
      (ReachableAny.stepSet 0 "" 1 none ReachableAny.init)
  exact absurd (h _ hr) (by decide)

/-- C2 (amended): provided every key used is truthy (for string keys,
nonempty), a `TTLCache` with `maxSize = N ≥ 1` holds at most `N` entries in
every reachable state; and inserting `N` distinct fresh truthy keys into an
empty store followed by one more distinct truthy key evicts exactly the
first-inserted key: the first key then reads `NotFound` while the other `N`
keys read `Found` with their values.  The truthiness proviso is forced by
`C2_counterexample`: a falsy first key makes the source skip the eviction
delete, breaking the bound. -/
theorem C2_capacity_bound (truthy : K → Bool) (opts : TTLCacheOptions)
    (N : Nat) (hN : 1 ≤ N) (hsz : opts.maxSize = some N) :
    (∀ c : TTLCache K V, ReachableTruthy truthy opts c → c.cache.length ≤ N) ∧
    (∀ (now ttl : Int) (k0 : K) (v0 : V) (rest : List (K × V)) (knew : K) (vnew : V),
      0 < ttl →
      ((k0, v0) :: rest).length = N →
      (((k0, v0) :: rest).map Prod.fst ++ [knew]).Nodup →
      (∀ p ∈ (k0, v0) :: rest, truthy p.1 = true) →
      truthy knew = true →
      ((((setMany truthy now (some ttl) (TTLCache.new K V opts) ((k0, v0) :: rest)).set
          truthy now knew vnew (some ttl)).get now k0).1 = CacheResult.notFound ∧
       ∀ p ∈ rest ++ [(knew, vnew)],
        (((setMany truthy now (some ttl) (TTLCache.new K V opts) ((k0, v0) :: rest)).set
          truthy now knew vnew (some ttl)).get now p.1).1 = CacheResult.found p.2)) := by
  constructor
  · intro c hr
    exact (reachableTruthy_inv truthy opts N hN hsz c hr).2.2
  · intro now ttl k0 v0 rest knew vnew httl hlenN hnd htrAll htrNew
    have hms_base : (TTLCache.new K V opts).maxSize = some N := by
      simp [TTLCache.new, hsz]
    have hndL : (((k0, v0) :: rest).map Prod.fst).Nodup := (List.nodup_append.mp hnd).1
    have hdisj := (List.nodup_append.mp hnd).2.2
    have hk0_ne_knew : k0 ≠ knew := by
      intro he
      have hk0mem : k0 ∈ ((k0, v0) :: rest).map Prod.fst :=
        List.mem_map_of_mem Prod.fst (List.mem_cons_self _ _)
      exact hdisj hk0mem (by rw [← he]; exact List.mem_singleton.mpr rfl)
    have hknew_notin : ∀ q ∈ (k0, v0) :: rest, q.1 ≠ knew := by
      intro q hq he
      have : q.1 ∈ ((k0, v0) :: rest).map Prod.fst := List.mem_map_of_mem Prod.fst hq
      exact hdisj this (by rw [he]; exact List.mem_singleton.mpr rfl)
    have hk0_notin_rest : k0 ∉ rest.map Prod.fst := by
      have := hndL
      simp only [List.map_cons] at this
      exact (List.nodup_cons.mp this).1
    have hnd1 : (((TTLCache.new K V opts).cache.map Prod.fst)
        ++ ((k0, v0) :: rest).map Prod.fst).Nodup := by
      simpa [TTLCache.new] using hndL
    have hcap1 : numTruthy (TTLCache.new K V opts).maxSize = true →
        (TTLCache.new K V opts).cache.length + ((k0, v0) :: rest).length
          ≤ (TTLCache.new K V opts).maxSize.getD 0 := by
      intro _
      rw [hms_base]
      simp only [Option.getD_some, TTLCache.new, List.length_nil]
      omega
    have hmid : (setMany truthy now (some ttl)
        (TTLCache.new K V opts) ((k0, v0) :: rest)).cache
        = ((k0, v0) :: rest).map
            (fun kv => (kv.1, { value := kv.2, expireAt := now + ttl })) := by
      rw [setMany_fresh truthy now (some ttl) ((k0, v0) :: rest)
        (TTLCache.new K V opts) hnd1 hcap1]
      simp [TTLCache.new, Option.getD_some]
    have hmid_max : (setMany truthy now (some ttl)
        (TTLCache.new K V opts) ((k0, v0) :: rest)).maxSize = some N := by
      rw [setMany_maxSize]
      exact hms_base
    have hc : (setMany truthy now (some ttl)
        (TTLCache.new K V opts) ((k0, v0) :: rest)).cache
        = (k0, { value := v0, expireAt := now + ttl })
            :: rest.map (fun kv => (kv.1, { value := kv.2, expireAt := now + ttl })) := by
      rw [hmid]
      rfl
    have hnew : jsMapGet (setMany truthy now (some ttl)
        (TTLCache.new K V opts) ((k0, v0) :: rest)).cache knew = none := by
      rw [hmid]
      exact jsMapGet_map_entry_none _ _ knew hknew_notin
    have hnum : numTruthy (setMany truthy now (some ttl)
        (TTLCache.new K V opts) ((k0, v0) :: rest)).maxSize = true := by
      rw [hmid_max]
      simp [numTruthy]
      omega
    have hlen : (setMany truthy now (some ttl)
        (TTLCache.new K V opts) ((k0, v0) :: rest)).cache.length
        ≥ (setMany truthy now (some ttl)
            (TTLCache.new K V opts) ((k0, v0) :: rest)).maxSize.getD 0 := by
      rw [hmid_max]
      simp only [Option.getD_some]
      rw [hmid]
      simp only [List.length_map]
      omega
    have hk0rest : ∀ p ∈ rest.map
        (fun kv => (kv.1, ({ value := kv.2, expireAt := now + ttl } : Entry V))),
        p.1 ≠ k0 := by
      intro p hp he
      rcases List.mem_map.mp hp with ⟨q, hq, rfl⟩
      exact hk0_notin_rest (by rw [← he]; exact List.mem_map_of_mem Prod.fst hq)
    have htr0 : truthy k0 = true := htrAll (k0, v0) (List.mem_cons_self _ _)
    have hfin := set_at_capacity_evicts truthy now
      (setMany truthy now (some ttl) (TTLCache.new K V opts) ((k0, v0) :: rest))
      knew vnew (some ttl) k0 { value := v0, expireAt := now + ttl }
      (rest.map (fun kv => (kv.1, { value := kv.2, expireAt := now + ttl })))
      hc hnew hnum hlen htr0 hk0rest
    simp only [Option.getD_some] at hfin
    have hfin2 : ((setMany truthy now (some ttl)
        (TTLCache.new K V opts) ((k0, v0) :: rest)).set
          truthy now knew vnew (some ttl)).cache
        = (rest ++ [(knew, vnew)]).map
            (fun kv => (kv.1, { value := kv.2, expireAt := now + ttl })) := by
      rw [hfin, List.map_append]
      rfl
    constructor
    · apply get_notFound_of_none
      rw [hfin2]
      apply jsMapGet_map_entry_none
      intro q hq
      rcases List.mem_append.mp hq with h | h
      · intro he
        exact hk0_notin_rest (by rw [← he]; exact List.mem_map_of_mem Prod.fst h)
      · rw [List.mem_singleton.mp h]
        exact fun he => hk0_ne_knew he.symm
    · intro p hp
      have hndR : ((rest ++ [(knew, vnew)]).map Prod.fst).Nodup := by
        simp only [List.map_append, List.map_cons, List.map_nil]
        have hh := hnd
        simp only [List.map_cons, List.cons_append] at hh
        exact hh.of_cons
      have hmem : (p.1, ({ value := p.2, expireAt := now + ttl } : Entry V))
          ∈ (rest ++ [(knew, vnew)]).map
              (fun kv => (kv.1, { value := kv.2, expireAt := now + ttl })) :=
        List.mem_map_of_mem _ hp
      have hlook : jsMapGet ((setMany truthy now (some ttl)
          (TTLCache.new K V opts) ((k0, v0) :: rest)).set
            truthy now knew vnew (some ttl)).cache p.1
          = some { value := p.2, expireAt := now + ttl } := by
        rw [hfin2]
        exact jsMapGet_of_mem_nodup _ p.1 _ (nodup_keys_map_entry _ _ hndR) hmem
      exact get_found_of_mem now _ p.1 p.2 (now + ttl) hlook (by omega)

/-- Witness for `C2_capacity_bound`: the concrete `maxSize = 2` scenario of
the spec — insert `"a"`, `"b"`, then `"c"`; `"a"` is evicted, `"b"` and
`"c"` remain. -/
theorem C2_witness :
    ((((setMany jsStrTruthy 0 (some 1)
        (TTLCache.new String Nat { defaultTTL := none, maxSize := some 2 })
        [("a", 1), ("b", 2)]).set jsStrTruthy 0 "c" 3 (some 1)).get 0 "a").1
      = CacheResult.notFound) ∧
    ((((setMany jsStrTruthy 0 (some 1)
        (TTLCache.new String Nat { defaultTTL := none, maxSize := some 2 })
        [("a", 1), ("b", 2)]).set jsStrTruthy 0 "c" 3 (some 1)).get 0 "b").1
      = CacheResult.found 2) ∧
    ((((setMany jsStrTruthy 0 (some 1)
        (TTLCache.new String Nat { defaultTTL := none, maxSize := some 2 })
        [("a", 1), ("b", 2)]).set jsStrTruthy 0 "c" 3 (some 1)).get 0 "c").1
      = CacheResult.found 3) :=
  have h := (C2_capacity_bound jsStrTruthy { defaultTTL := none, maxSize := some 2 }
      2 (by decide) rfl).2 0 1 "a" 1 [("b", 2)] "c" 3
      (by decide) (by decide) (by decide) (by decide) (by decide)
  ⟨h.1, h.2 ("b", 2) (by decide), h.2 ("c", 3) (by decide)⟩

/-! ### Coalescing loader: claims C1, C4, C9 -/

theorem jsMapSet_jsMapSet (m : List (K × A)) (k : K) (a b : A) :
    jsMapSet (jsMapSet m k a) k b = jsMapSet m k b := by
  by_cases hhas : jsMapHas m k = true
  · have h1 : jsMapSet m k a = m.map (fun p => if p.1 = k then (k, a) else p) := by
      unfold jsMapSet
      rw [if_pos hhas]
    have hhas2 : jsMapHas (jsMapSet m k a) k = true := by
      simp [jsMapHas, jsMapGet_set_self]
    rw [h1] at hhas2
    have h2 : jsMapSet (m.map (fun p => if p.1 = k then (k, a) else p)) k b
        = (m.map (fun p => if p.1 = k then (k, a) else p)).map
            (fun p => if p.1 = k then (k, b) else p) := by
      unfold jsMapSet
      rw [if_pos hhas2]
    have h3 : jsMapSet m k b = m.map (fun p => if p.1 = k then (k, b) else p) := by
      unfold jsMapSet
      rw [if_pos hhas]
    rw [h1, h2, h3, List.map_map]
    apply List.map_congr_left
    intro p _
    by_cases hp : p.1 = k
    · simp [Function.comp, hp]
    · simp [Function.comp, hp]
  · have hhasb : jsMapHas m k = false := by
      cases hb : jsMapHas m k
      · rfl
      · exact absurd hb hhas
    have hnone : jsMapGet m k = none := by
      unfold jsMapHas at hhasb
      cases hm : jsMapGet m k
      · rfl
      · rw [hm] at hhasb; simp at hhasb
    have h1 : jsMapSet m k a = m ++ [(k, a)] := jsMapSet_of_none m k a hnone
    have h2 : jsMapSet m k b = m ++ [(k, b)] := jsMapSet_of_none m k b hnone
    have hhas2 : jsMapHas (m ++ [(k, a)]) k = true := by
      have := jsMapGet_set_self m k a
      rw [h1] at this
      simp [jsMapHas, this]
    rw [h1, h2]
    unfold jsMapSet
    rw [if_pos hhas2, List.map_append]
    have hm1 : m.map (fun p => if p.1 = k then (k, b) else p) = m := by
      have hid : m.map (fun p => if p.1 = k then (k, b) else p) = m.map id := by
        apply List.map_congr_left
        intro p hp
        have hne : p.1 ≠ k := (jsMapGet_eq_none_iff m k).mp hnone p hp
        simp [hne]
      rw [hid, List.map_id]
    rw [hm1]
    simp

theorem loaderCallerStarts_succ (truthy : K → Bool) (now : Int) (key : K)
    (n : Nat) : ∀ s : LoaderMachine K V,
    loaderCallerStarts truthy now key (n + 1) s
      = loaderCallerStart truthy now key (loaderCallerStarts truthy now key n s) := by
  induction n with
  | zero => intro s; rfl
  | succ n ih =>
      intro s
      have h1 : loaderCallerStarts truthy now key (n + 1 + 1) s
          = loaderCallerStarts truthy now key (n + 1)
              (loaderCallerStart truthy now key s) := rfl
      rw [h1, ih]
      rfl

set_option maxRecDepth 4000 in
theorem loaderCallerStarts_spec (truthy : K → Bool) (now : Int) (key : K)
    (s : LoaderMachine K V)
    (hmiss : (s.cache.get now key).1 = CacheResult.notFound)
    (hpend : jsMapGet s.pendingFetches key = none)
    (hcount : s.fetchCount = 0) (hwait : s.waiting = 0) (hres : s.results = []) :
    ∀ j : Nat,
    loaderCallerStarts truthy now key (j + 1) s
      = { cache := (s.cache.get now key).2,
          pendingFetches := jsMapSet s.pendingFetches key (j + 1),
          fetchCount := 1,
          errorCount := s.errorCount,
          waiting := j + 1,
          results := [] } := by
  intro j
  induction j with
  | zero =>
      show loaderCallerStart truthy now key s = _
      rcases hE : s.cache.get now key with ⟨r, c2⟩
      rw [hE] at hmiss
      simp at hmiss
      subst hmiss
      simp only [loaderCallerStart, hE, hpend]
      simp [hcount, hwait, hres]
  | succ j ih =>
      rw [loaderCallerStarts_succ, ih]
      have hget2 := get_stable now s.cache key hmiss
      simp only [loaderCallerStart, hget2, jsMapGet_set_self, jsMapSet_jsMapSet]

/-! ### Claim C9 -/

/-- C9: the promise the initiator registers in a PendingFetch never
rejects: the `then`/`catch`/`finally` chain converts every settlement of
the underlying fetch — success, not-found, or a raised error — into a
resolved `CacheResult` (`Except.ok`), so the rejection-handling `catch`
branch in the attacher path of `get` (which would map a rejection to
`NotFound`) is unreachable.  (The error callback is modelled as
non-throwing, which is its stated collaborator contract.) -/
theorem C9_chain_never_rejects (truthy : K → Bool) (now : Int) (key : K)
    (fo : Except JsError (FetchResult V)) (s : LoaderMachine K V) :
    (fetchChain truthy now key fo s).1 = Except.ok (settleOutcome fo) := by
  cases fo with
  | error e => rfl
  | ok r =>
      cases r with
      | got d => rfl
      | notGot => rfl

/-! ### Claim C4 -/

/-- C4: when the per-key fetch settles with a raised error, no error
reaches any caller: the error callback is invoked (once), the chain
resolves to `NotFound` (never a rejection), every suspended caller —
initiator and attachers alike — receives `NotFound`, the store is left
untouched, and the PendingFetch entry for the key is gone from the
registry when the call returns. -/
theorem C4_fetch_error_normalized (truthy : K → Bool) (now : Int) (key : K)
    (e : JsError) (s : LoaderMachine K V) :
    (loaderSettle truthy now key (Except.error e) s).errorCount = s.errorCount + 1 ∧
    jsMapGet (loaderSettle truthy now key (Except.error e) s).pendingFetches key = none ∧
    (loaderSettle truthy now key (Except.error e) s).results
      = s.results ++ List.replicate s.waiting CacheResult.notFound ∧
    (loaderSettle truthy now key (Except.error e) s).cache = s.cache ∧
    (fetchChain truthy now key (Except.error e) s).1
      = Except.ok CacheResult.notFound := by
  refine ⟨rfl, ?_, rfl, rfl, rfl⟩
  exact jsMapGet_delete_self _ key

/-! ### Claim C1 -/

/-- C1: `C ≥ 2` concurrent callers entering `get(key)` while the key is
absent or expired in the store and no fetch is pending trigger exactly one
invocation of the external fetch function, and — once the fetch settles —
all `C` callers receive the identical outcome: `Found` of the fetched
value, `NotFound`, or the normalized-failure `NotFound`. -/
theorem C1_coalesced_single_fetch (truthy : K → Bool) (now : Int) (key : K)
    (fo : Except JsError (FetchResult V)) (C : Nat) (hC : 2 ≤ C)
    (s : LoaderMachine K V)
    (hmiss : (s.cache.get now key).1 = CacheResult.notFound)
    (hpend : jsMapGet s.pendingFetches key = none)
    (hcount : s.fetchCount = 0) (hwait : s.waiting = 0) (hres : s.results = []) :
    (loaderSettle truthy now key fo (loaderCallerStarts truthy now key C s)).fetchCount
      = 1 ∧
    (loaderSettle truthy now key fo (loaderCallerStarts truthy now key C s)).results
      = List.replicate C (settleOutcome fo) := by
  obtain ⟨j, rfl⟩ : ∃ j, C = j + 1 := ⟨C - 1, by omega⟩
  rw [loaderCallerStarts_spec truthy now key s hmiss hpend hcount hwait hres j]
  cases fo with
  | error e => exact ⟨rfl, rfl⟩
  | ok r =>
      cases r with
      | got d => exact ⟨rfl, rfl⟩
      | notGot => exact ⟨rfl, rfl⟩

/-- Witness for `C1_coalesced_single_fetch`: two concurrent callers for
`"k"` against an empty loader, fetch succeeding with `42` — one fetch
invocation, both callers receive `Found 42`. -/
theorem C1_witness :
    2 ≤ 2 ∧
    (loaderSettle jsStrTruthy 0 "k" (Except.ok (FetchResult.got 42))
        (loaderCallerStarts jsStrTruthy 0 "k" 2
          { cache := TTLCache.new String Nat { defaultTTL := none, maxSize := none },
            pendingFetches := [], fetchCount := 0, errorCount := 0,
            waiting := 0, results := [] })).fetchCount = 1 ∧
    (loaderSettle jsStrTruthy 0 "k" (Except.ok (FetchResult.got 42))
        (loaderCallerStarts jsStrTruthy 0 "k" 2
          { cache := TTLCache.new String Nat { defaultTTL := none, maxSize := none },
            pendingFetches := [], fetchCount := 0, errorCount := 0,
            waiting := 0, results := [] })).results
      = List.replicate 2 (settleOutcome (Except.ok (FetchResult.got 42))) :=
  have h := C1_coalesced_single_fetch jsStrTruthy 0 "k"
    (Except.ok (FetchResult.got 42)) 2 (by decide)
    { cache := TTLCache.new String Nat { defaultTTL := none, maxSize := none },
      pendingFetches := [], fetchCount := 0, errorCount := 0,
      waiting := 0, results := [] }
    (by decide) rfl rfl rfl rfl
  ⟨by decide, h.1, h.2⟩

/-! ### Claim C3 -/

/-- C3: when a refresh cycle's bulk fetch raises an error, the error
handler is invoked (once), the cycle completes without raising (the model
is a total function: the `try`/`catch` swallows the error), and the store
is left exactly as it was — every subsequent `get` behaves as it would
have before the failed cycle. -/
theorem C3_bulk_error_keeps_data (truthy : K → Bool) (now : Int)
    (e : JsError) (s : BatchState K V) (hq : s.queuedReaders = []) :
    (bulkSettle truthy now (Except.error e) s).cache = s.cache ∧
    (bulkSettle truthy now (Except.error e) s).errorCalls = s.errorCalls + 1 ∧
    ∀ (t : Int) (k : K),
      (bulkSettle truthy now (Except.error e) s).cache.get t k
        = s.cache.get t k := by
  have hcache : (bulkSettle truthy now (Except.error e) s).cache = s.cache := by
    simp only [bulkSettle, hq, readAll, bulkCycleCache]
  exact ⟨hcache, rfl, fun t k => by rw [hcache]⟩

/-- Witness for `C3_bulk_error_keeps_data`: a store holding `"a" ↦ 1`
survives a failed refresh untouched, and `get "a"` still finds it. -/
theorem C3_witness :
    (bulkSettle jsStrTruthy 0 (Except.error "boom")
        { cache := (TTLCache.new String Nat
            { defaultTTL := some 10, maxSize := none }).set jsStrTruthy 0 "a" 1 none,
          errorCalls := 0, inFlight := true, queuedReaders := [],
          readerResults := [] }).cache
      = (TTLCache.new String Nat
          { defaultTTL := some 10, maxSize := none }).set jsStrTruthy 0 "a" 1 none ∧
    (bulkSettle jsStrTruthy 0 (Except.error "boom")
        { cache := (TTLCache.new String Nat
            { defaultTTL := some 10, maxSize := none }).set jsStrTruthy 0 "a" 1 none,
          errorCalls := 0, inFlight := true, queuedReaders := [],
          readerResults := [] }).errorCalls = 0 + 1 ∧
    (bulkSettle jsStrTruthy 0 (Except.error "boom")
        { cache := (TTLCache.new String Nat
            { defaultTTL := some 10, maxSize := none }).set jsStrTruthy 0 "a" 1 none,
          errorCalls := 0, inFlight := true, queuedReaders := [],
          readerResults := [] }).cache.get 0 "a"
      = ((TTLCache.new String Nat
          { defaultTTL := some 10, maxSize := none }).set jsStrTruthy 0 "a" 1 none).get 0 "a" :=
  have h := C3_bulk_error_keeps_data jsStrTruthy 0 "boom"
    { cache := (TTLCache.new String Nat
        { defaultTTL := some 10, maxSize := none }).set jsStrTruthy 0 "a" 1 none,
      errorCalls := 0, inFlight := true, queuedReaders := [],
      readerResults := [] } rfl
  ⟨h.1, h.2.1, h.2.2 0 "a"⟩

/-! ### Claim C5 -/

/-- C5 counterexample: with `maxSize = 1`, a successful bulk fetch
returning two entries does not leave every returned pair readable — the
repopulation loop evicts `"a"` when inserting `"b"`, so `get "a"` returns
`NotFound`, contradicting the claim's "for every returned pair (k, v) a
subsequent get(k) returns Found(v)". -/
theorem C5_counterexample :
    ((bulkSettle jsStrTruthy 0
        (Except.ok { entries := [("a", 1), ("b", 2)] })
        { cache := TTLCache.new String Nat { defaultTTL := none, maxSize := some 1 },
          errorCalls := 0, inFlight := true, queuedReaders := [],
          readerResults := [] }).cache.get 0 "a").1 = CacheResult.notFound := by
  decide

/-- C5 (amended): when a refresh cycle's bulk fetch succeeds, the store's
contents are wholly replaced — every prior entry (manual
`setUntilNextRefresh` writes included) is removed and the store becomes
exactly the returned pairs, each with expiry `now + defaultTTL` — provided
the returned keys are distinct and, when a capacity bound is configured,
number at most `maxSize` (otherwise the repopulation loop evicts early
pairs, as `C5_counterexample` shows).  Each returned pair then reads
`Found` until its expiry, and every other key reads `NotFound`. -/
theorem C5_bulk_replace (truthy : K → Bool) (now : Int) (s : BatchState K V)
    (entries : List (K × V))
    (hnd : (entries.map Prod.fst).Nodup)
    (hcap : numTruthy s.cache.maxSize = true →
      entries.length ≤ s.cache.maxSize.getD 0)
    (hq : s.queuedReaders = []) :
    (bulkSettle truthy now (Except.ok { entries := entries }) s).cache.cache
      = entries.map (fun kv =>
          (kv.1, ({ value := kv.2, expireAt := now + s.cache.defaultTTL } : Entry V))) ∧
    (∀ p ∈ entries, ∀ t : Int, ¬ t > now + s.cache.defaultTTL →
      ((bulkSettle truthy now (Except.ok { entries := entries }) s).cache.get t p.1).1
        = CacheResult.found p.2) ∧
    (∀ k : K, k ∉ entries.map Prod.fst → ∀ t : Int,
      ((bulkSettle truthy now (Except.ok { entries := entries }) s).cache.get t k).1
        = CacheResult.notFound) := by
  have hcy : (bulkSettle truthy now (Except.ok { entries := entries }) s).cache
      = setMany truthy now none (TTLCache.clear s.cache) entries := by
    simp only [bulkSettle, hq, readAll, bulkCycleCache]
  have hnd1 : (((TTLCache.clear s.cache).cache.map Prod.fst)
      ++ entries.map Prod.fst).Nodup := by
    simpa [TTLCache.clear] using hnd
  have hcap1 : numTruthy (TTLCache.clear s.cache).maxSize = true →
      (TTLCache.clear s.cache).cache.length + entries.length
        ≤ (TTLCache.clear s.cache).maxSize.getD 0 := by
    intro hnum
    have := hcap hnum
    simp only [TTLCache.clear, List.length_nil]
    omega
  have hrepl : (setMany truthy now none (TTLCache.clear s.cache) entries).cache
      = entries.map (fun kv =>
          (kv.1, ({ value := kv.2, expireAt := now + s.cache.defaultTTL } : Entry V))) := by
    rw [setMany_fresh truthy now none entries (TTLCache.clear s.cache) hnd1 hcap1]
    simp [TTLCache.clear, Option.getD_none]
  refine ⟨by rw [hcy, hrepl], ?_, ?_⟩
  · intro p hp t ht
    have hmem : (p.1, ({ value := p.2, expireAt := now + s.cache.defaultTTL } : Entry V))
        ∈ entries.map (fun kv =>
            (kv.1, ({ value := kv.2, expireAt := now + s.cache.defaultTTL } : Entry V))) :=
      List.mem_map_of_mem _ hp
    have hlook : jsMapGet
        (bulkSettle truthy now (Except.ok { entries := entries }) s).cache.cache p.1
        = some { value := p.2, expireAt := now + s.cache.defaultTTL } := by
      rw [hcy, hrepl]
      exact jsMapGet_of_mem_nodup _ p.1 _ (nodup_keys_map_entry _ _ hnd) hmem
    exact get_found_of_mem t _ p.1 p.2 (now + s.cache.defaultTTL) hlook ht
  · intro k hk t
    apply get_notFound_of_none
    rw [hcy, hrepl]
    apply jsMapGet_map_entry_none
    intro q hq2 he
    exact hk (he ▸ List.mem_map_of_mem Prod.fst hq2)

/-- Witness for `C5_bulk_replace`: a successful refresh returning
`[("a", 1)]` replaces a store previously holding `"old" ↦ 9`; afterwards
`"a"` reads `Found 1` and the prior manual entry `"old"` reads
`NotFound`. -/
theorem C5_witness :
    ((bulkSettle jsStrTruthy 0 (Except.ok { entries := [("a", 1)] })
        { cache := (TTLCache.new String Nat
            { defaultTTL := some 10, maxSize := some 5 }).set jsStrTruthy 0 "old" 9 none,
          errorCalls := 0, inFlight := true, queuedReaders := [],
          readerResults := [] }).cache.get 0 "a").1 = CacheResult.found 1 ∧
    ((bulkSettle jsStrTruthy 0 (Except.ok { entries := [("a", 1)] })
        { cache := (TTLCache.new String Nat
            { defaultTTL := some 10, maxSize := some 5 }).set jsStrTruthy 0 "old" 9 none,
          errorCalls := 0, inFlight := true, queuedReaders := [],
          readerResults := [] }).cache.get 0 "old").1 = CacheResult.notFound :=
  have h := C5_bulk_replace jsStrTruthy 0
    { cache := (TTLCache.new String Nat
        { defaultTTL := some 10, maxSize := some 5 }).set jsStrTruthy 0 "old" 9 none,
      errorCalls := 0, inFlight := true, queuedReaders := [],
      readerResults := [] } [("a", 1)] (by decide) (fun _ => by decide) rfl
  ⟨h.2.1 ("a", 1) (by decide) 0 (by decide), h.2.2 "old" (by decide) 0⟩

/-! ### Claim C6 -/

theorem bulkReaderArrive_foldl_inflight (now : Int) (ks : List K) :
    ∀ s : BatchState K V, s.inFlight = true →
    ks.foldl (fun acc k => bulkReaderArrive now k acc) s
      = { s with queuedReaders := s.queuedReaders ++ ks } := by
  induction ks with
  | nil => intro s _; simp
  | cons k rest ih =>
      intro s h
      rw [List.foldl_cons]
      have harr : bulkReaderArrive now k s
          = { s with queuedReaders := s.queuedReaders ++ [k] } := by
        simp only [bulkReaderArrive, h, eq_self_iff_true, if_true]
      rw [harr, ih { s with queuedReaders := s.queuedReaders ++ [k] } h]
      simp [List.append_assoc]

/-- C6: every `get` issued while a refresh cycle is in flight is queued and
resumed only after the cycle settles: the readers' results are exactly the
reads of the settled store (pre-refresh store when the fetch failed, the
complete replacement when it succeeded), never a read of the intermediate
cleared-but-unpopulated store — the clear and the repopulation loop form
one synchronous block with no suspension point between them. -/
theorem C6_reader_ordered_after_cycle (truthy : K → Bool) (now : Int)
    (s : BatchState K V) (ks : List K)
    (fo : Except JsError (BatchFetchResult K V))
    (hflight : s.inFlight = false) (hq : s.queuedReaders = []) :
    (bulkSettle truthy now fo
        (ks.foldl (fun acc k => bulkReaderArrive now k acc) (bulkStartFetch s))).inFlight
      = false ∧
    (bulkSettle truthy now fo
        (ks.foldl (fun acc k => bulkReaderArrive now k acc) (bulkStartFetch s))).readerResults
      = s.readerResults ++ (readAll now (bulkCycleCache truthy now fo s.cache) ks).1 ∧
    (∀ e, fo = Except.error e → bulkCycleCache truthy now fo s.cache = s.cache) ∧
    (∀ r, fo = Except.ok r →
      bulkCycleCache truthy now fo s.cache
        = setMany truthy now none (TTLCache.clear s.cache) r.entries) := by
  have hsf : bulkStartFetch s = { s with inFlight := true } := by
    simp [bulkStartFetch, hflight]
  have hfold := bulkReaderArrive_foldl_inflight now ks { s with inFlight := true } rfl
  rw [hsf, hfold, hq]
  refine ⟨rfl, rfl, ?_, ?_⟩
  · intro e he
    rw [he]
    rfl
  · intro r hr
    rw [hr]
    rfl

/-- Witness for `C6_reader_ordered_after_cycle`: one reader for `"a"`
arriving during a failing refresh observes the intact pre-refresh store. -/
theorem C6_witness :
    (bulkSettle jsStrTruthy 0 (Except.error "x")
        ((["a"] : List String).foldl (fun acc k => bulkReaderArrive 0 k acc)
          (bulkStartFetch
            { cache := (TTLCache.new String Nat
                { defaultTTL := some 10, maxSize := none }).set jsStrTruthy 0 "a" 1 none,
              errorCalls := 0, inFlight := false, queuedReaders := [],
              readerResults := [] }))).inFlight = false ∧
    (bulkSettle jsStrTruthy 0 (Except.error "x")
        ((["a"] : List String).foldl (fun acc k => bulkReaderArrive 0 k acc)
          (bulkStartFetch
            { cache := (TTLCache.new String Nat
                { defaultTTL := some 10, maxSize := none }).set jsStrTruthy 0 "a" 1 none,
              errorCalls := 0, inFlight := false, queuedReaders := [],
              readerResults := [] }))).readerResults
      = [] ++ (readAll 0 (bulkCycleCache jsStrTruthy 0 (Except.error "x")
          ((TTLCache.new String Nat
            { defaultTTL := some 10, maxSize := none }).set jsStrTruthy 0 "a" 1 none))
          ["a"]).1 ∧
    bulkCycleCache jsStrTruthy 0 (Except.error "x")
        ((TTLCache.new String Nat
          { defaultTTL := some 10, maxSize := none }).set jsStrTruthy 0 "a" 1 none)
      = (TTLCache.new String Nat
          { defaultTTL := some 10, maxSize := none }).set jsStrTruthy 0 "a" 1 none :=
  have h := C6_reader_ordered_after_cycle jsStrTruthy 0
    { cache := (TTLCache.new String Nat
        { defaultTTL := some 10, maxSize := none }).set jsStrTruthy 0 "a" 1 none,
      errorCalls := 0, inFlight := false, queuedReaders := [],
      readerResults := [] } ["a"] (Except.error "x") rfl rfl
  ⟨h.1, h.2.1, h.2.2.1 "x" rfl⟩

/-! ### Claim C8 -/

/-- C8 counterexample: constructing a `TTLCacheWithBatchFetch` with the
`refreshInterval` option absent does arm the recurring timer — the source
defaults the interval to `5 * 60 * 1000` and arms `setInterval` whenever
the effective interval is positive, contradicting the claim that an absent
interval disables the timer. -/
theorem C8_counterexample :
    (initBatchFetch { defaultTTL := none, maxSize := none,
                      refreshInterval := none, fetchOnStart := none }).timerArmed
      = true := rfl

/-- C8 (amended): the effective refresh interval is
`options.refreshInterval ?? 300000`, and the recurring timer is armed
exactly when that effective interval is positive.  Hence an absent
`refreshInterval` arms a 5-minute timer (see `C8_counterexample`), while an
explicit zero (or negative) interval disables it; `fetchOnStart` defaults
to `true` independently. -/
theorem C8_timer_configuration (o : BatchFetchOptions) :
    (initBatchFetch o).refreshInterval = o.refreshInterval.getD 300000 ∧
    (initBatchFetch o).timerArmed = decide (o.refreshInterval.getD 300000 > 0) ∧
    (initBatchFetch o).fetchOnStartTriggered = o.fetchOnStart.getD true :=
  ⟨rfl, rfl, rfl⟩
